import Mathlib

/-!
Shallow embedding of the Math Trainer React component (`src/App.js`).

The component is a single state machine over React `useState` fields.  We
model the whole component state as one record `TrainerState`, and each
event handler (`start`, `stop`, `checkAnswer`, `next`, the per-problem
timer tick) as a pure state transformer.  `Math.random()` is modelled as an
explicit stream `rng : ℕ → ℚ` of draws in `[0, 1)`; `Date.now()` as an
explicit `now : Int` argument (milliseconds); `localStorage` as the `saved`
field (serialization via `JSON.stringify`/`parse` abstracted to the record
list itself).
-/

namespace MathTrainer

/-- A generated addition problem (`makeProblems` pushes
`{ a, b, op: "+", id: `${a}-${b}-${i}` }`). -/
structure Problem where
  a : Int
  b : Int
  op : String
  id : String
  deriving DecidableEq, Repr

/-- Feedback value: `{ok: bool, correct: number}`; in the timer-expiry path
`correct` can be `null` when there is no current problem, hence `Option`. -/
structure Feedback where
  ok : Bool
  correct : Option Int
  deriving DecidableEq, Repr

/-- The record built by `stop` and appended to history. `date` abstracts the
ISO timestamp string to the raw millisecond time. -/
structure SessionRecord where
  date : Int
  problemsCount : Int
  solved : Nat
  total : Int
  durationSec : Int
  reason : String
  deriving DecidableEq, Repr

/-- All `useState` fields of the component, plus `saved` for the
`localStorage` contents under the "math-trainer-history" key. -/
structure TrainerState where
  minOperand : Int
  maxOperand : Int
  numProblems : Int
  timePerProblem : Int
  autoNext : Bool
  shuffle : Bool
  running : Bool
  problems : List Problem
  index : Nat
  answer : List Char
  feedback : Option Feedback
  score : Nat
  startTime : Option Int
  elapsed : Nat
  history : List SessionRecord
  saved : List SessionRecord
  deriving DecidableEq, Repr

/-- Model of `const randInt = (a, b) => Math.floor(Math.random() * (b - a + 1)) + a`
with the `Math.random()` draw `r` passed explicitly. -/
def randInt (r : ℚ) (a b : Int) : Int :=
  ⌊r * ((b : ℚ) - (a : ℚ) + 1)⌋ + a

/-- The problem built at loop position `i` of `makeProblems`: two `randInt`
draws (the `i`-th iteration consumes stream positions `2*i` and `2*i+1`)
and the id string `` `${a}-${b}-${i}` ``. -/
def genProblem (rng : ℕ → ℚ) (minV maxV : Int) (i : ℕ) : Problem :=
  let a := randInt (rng (2 * i)) minV maxV
  let b := randInt (rng (2 * i + 1)) minV maxV
  { a := a, b := b, op := "+", id := toString a ++ "-" ++ toString b ++ "-" ++ toString i }

/-- One insertion step of the comparator-based sort used to model
`arr.sort(() => Math.random() - 0.5)`. The comparator is a pure function of
a call counter `k`, so an arbitrary (possibly inconsistent) comparator is
covered. Returns the updated counter and list. -/
def insertCmp {α : Type} (cmp : ℕ → Bool) : ℕ → α → List α → ℕ × List α
  | k, x, [] => (k, [x])
  | k, x, y :: ys =>
    if cmp k then (k + 1, x :: y :: ys)
    else
      let r := insertCmp cmp (k + 1) x ys
      (r.1, y :: r.2)

/-- Comparator-based insertion sort threading the comparator call counter.
`Array.prototype.sort` with an inconsistent random comparator is
engine-defined but always a permutation; we model it with insertion sort. -/
def jsSortAux {α : Type} (cmp : ℕ → Bool) : ℕ → List α → ℕ × List α
  | k, [] => (k, [])
  | k, x :: xs =>
    let r := jsSortAux cmp k xs
    insertCmp cmp r.1 x r.2

/-- Model of `arr.sort(comparator)` as comparator-based insertion sort. -/
def jsSort {α : Type} (cmp : ℕ → Bool) (l : List α) : List α :=
  (jsSortAux cmp 0 l).2

/-- Model of `makeProblems(n, minV, maxV, shuffled)`: `n` generated problems (a
negative `n` runs the loop zero times), then an in-place random-comparator
sort when `shuffled`. Generation consumes stream positions `0..2n-1`;
comparator calls consume positions from `2n` on. -/
def makeProblems (n minV maxV : Int) (shuffled : Bool) (rng : ℕ → ℚ) : List Problem :=
  let arr := (List.range n.toNat).map (genProblem rng minV maxV)
  if shuffled then jsSort (fun k => decide (rng (2 * n.toNat + k) < 1 / 2)) arr else arr

/-- Model of `Math.round(q)` (round half up) on the rational `q`. -/
def jsRound (q : ℚ) : Int := ⌊q + 1 / 2⌋

/-- The `problems.length || numProblems` expression in `stop`:
JS `||` falls through to `numProblems` exactly when `problems.length` is 0. -/
def stopTotal (st : TrainerState) : Int :=
  if st.problems.length = 0 then st.numProblems else (st.problems.length : Int)

/-- The record literal built inside `stop`. `startTime || Date.now()` falls
through when `startTime` is `null` (or the falsy 0). -/
def mkRecord (st : TrainerState) (reason : String) (now : Int) : SessionRecord :=
  let base : Int :=
    match st.startTime with
    | none => now
    | some t => if t = 0 then now else t
  { date := now
    problemsCount := stopTotal st
    solved := st.score
    total := stopTotal st
    durationSec := jsRound (((now - base : Int) : ℚ) / 1000)
    reason := reason }

/-- Model of `stop(reason = "user")`: unconditionally (no `running` guard) builds the
record, prepends it to history truncated to 50, stores the result. -/
def stop (reason : String) (now : Int) (st : TrainerState) : TrainerState :=
  let newHist := (mkRecord st reason now :: st.history).take 50
  { st with running := false, history := newHist, saved := newHist }

/-- Model of `stop()` with the default argument `reason = "user"`. -/
def stopDefault (now : Int) (st : TrainerState) : TrainerState :=
  stop "user" now st

/-- Model of `start()`: regenerates problems from the current settings and resets the
run state. -/
def start (rng : ℕ → ℚ) (now : Int) (st : TrainerState) : TrainerState :=
  let p := makeProblems st.numProblems st.minOperand st.maxOperand st.shuffle rng
  { st with problems := p, index := 0, score := 0, feedback := none,
            running := true, startTime := some now, elapsed := 0, answer := [] }

/-- JS whitespace recognised by `String.prototype.trim` / `parseInt`
(space, tab, LF, CR, vertical tab, form feed; exotic Unicode spaces left
out as the claims only quantify over these). -/
def isWs (c : Char) : Bool :=
  c = ' ' || c = Char.ofNat 9 || c = Char.ofNat 10 || c = Char.ofNat 13 ||
    c = Char.ofNat 11 || c = Char.ofNat 12

/-- Leading-whitespace strip (`trimStart`). -/
def trimLeft (l : List Char) : List Char := l.dropWhile isWs

/-- Trailing-whitespace strip (`trimEnd`). -/
def trimRight (l : List Char) : List Char := (l.reverse.dropWhile isWs).reverse

/-- Model of `String.prototype.trim`. -/
def jsTrim (l : List Char) : List Char := trimRight (trimLeft l)

/-- Decimal digit characters `'0'..'9'` (code points 48–57), the digits
`parseInt(s, 10)` accepts. -/
def isDigitChar (c : Char) : Bool :=
  48 ≤ c.toNat && c.toNat ≤ 57

/-- The digit-run phase of `parseInt(s, 10)`: the longest leading run of
decimal digits, accumulated left to right; no digits means `NaN` (`none`).
Trailing non-digit characters are ignored. -/
def parseDigits (l : List Char) : Option ℕ :=
  let ds := l.takeWhile isDigitChar
  if ds.isEmpty then none
  else some (ds.foldl (fun acc c => acc * 10 + (c.toNat - 48)) 0)

/-- Model of `parseInt(s, 10)`: skip leading whitespace, optional sign, then a
leading digit run; `none` models `NaN`. -/
def parseIntJS (l : List Char) : Option Int :=
  match l.dropWhile isWs with
  | [] => none
  | c :: rest =>
    if c = '-' then
      match parseDigits rest with
      | none => none
      | some n => some (-(n : Int))
    else if c = '+' then
      match parseDigits rest with
      | none => none
      | some n => some ((n : Int))
    else
      match parseDigits (c :: rest) with
      | none => none
      | some n => some ((n : Int))

/-- Model of `checkAnswer(userAnswer)`: no-op unless running with a current problem;
parses the trimmed input, records feedback, increments the score on a
correct answer. The `autoNext` branch schedules `setTimeout(() => next(),
500)` for the surrounding environment; the delayed `next` call itself is
modelled separately (`next`). -/
def checkAnswer (userAnswer : List Char) (st : TrainerState) : TrainerState :=
  if st.running = false then st
  else
    match st.problems[st.index]? with
    | none => st
    | some p =>
      let correct := p.a + p.b
      let parsed := parseIntJS (jsTrim userAnswer)
      let ok : Bool := decide (parsed = some correct)
      { st with feedback := some { ok := ok, correct := some correct },
                score := if ok then st.score + 1 else st.score }

/-- Model of `next()`: clear input and feedback; advance the index if a problem
remains, otherwise `stop("finished")`. -/
def next (now : Int) (st : TrainerState) : TrainerState :=
  let st1 := { st with answer := ([] : List Char), feedback := none }
  if st.index + 1 < st.problems.length then
    { st1 with index := st.index + 1 }
  else stop "finished" now st1

/-- Iterates `next()`: `k` successive calls (oldest first). -/
def advanceN (now : Int) : ℕ → TrainerState → TrainerState
  | 0, st => st
  | k + 1, st => advanceN now k (next now st)

/-- The per-problem interval closure: `timeLeft` is the local `let timeLeft
= timePerProblem` variable of the timer `useEffect`, `st` the component
state it acts on. -/
structure TimerLoop where
  timeLeft : Int
  st : TrainerState
  deriving DecidableEq, Repr

/-- Entering the timer effect (running, `timePerProblem > 0`):
`let timeLeft = timePerProblem; setElapsed(0)`. -/
def timerInit (st : TrainerState) : TimerLoop :=
  ⟨st.timePerProblem, { st with elapsed := 0 }⟩

/-- One interval tick: `timeLeft -= 1; setElapsed(t+1); if (timeLeft <= 0) {
setFeedback({ok:false, correct: problems[index] ? a+b : null}); if
(autoNext) next(); }`. -/
def tick (now : Int) (ts : TimerLoop) : TimerLoop :=
  let timeLeft := ts.timeLeft - 1
  let st := { ts.st with elapsed := ts.st.elapsed + 1 }
  if timeLeft ≤ 0 then
    let correct := (ts.st.problems[ts.st.index]?).map (fun p => p.a + p.b)
    let st1 := { st with feedback := some { ok := false, correct := correct } }
    ⟨timeLeft, if ts.st.autoNext then next now st1 else st1⟩
  else ⟨timeLeft, st⟩

/-- Iterates the timer: `k` successive ticks. -/
def tickN (now : Int) : ℕ → TimerLoop → TimerLoop
  | 0, ts => ts
  | k + 1, ts => tickN now k (tick now ts)

/-- The `useState` initializer for `history`: `localStorage.getItem` returns
`null` (`none`) or the raw string; a falsy raw string yields `[]`, otherwise
`JSON.parse` (the abstract collaborator `parseJson`, `none` modelling a
thrown exception caught by the surrounding `try`) with `[]` on failure. -/
def loadHistory (parseJson : String → Option (List SessionRecord))
    (stored : Option String) : List SessionRecord :=
  match stored with
  | none => []
  | some raw => if raw = "" then [] else (parseJson raw).getD []

/-- A sequence of `stop(reason)` calls at given times, oldest first. -/
def stopMany (st : TrainerState) : List (String × Int) → TrainerState
  | [] => st
  | (r, t) :: rest => stopMany (stop r t st) rest

/-- The character for a single decimal digit `d < 10`. -/
def digitToChar (d : ℕ) : Char := Char.ofNat (48 + d)

/-- Canonical decimal representation of a natural number, most significant
digit first. -/
def natRepr (n : ℕ) : List Char :=
  if n = 0 then ['0'] else ((Nat.digits 10 n).map digitToChar).reverse

/-- Canonical decimal representation of an integer (`'-'` sign for
negatives), the "decimal text" the spec's claims quantify over. -/
def intRepr (v : Int) : List Char :=
  if v < 0 then '-' :: natRepr (-v).toNat else natRepr v.toNat

/-! ### General list helper lemmas -/

theorem dropWhile_append_of_all {α : Type} (p : α → Bool) :
    ∀ (l r : List α), (∀ c ∈ l, p c = true) →
      List.dropWhile p (l ++ r) = List.dropWhile p r := by
  intro l r h
  induction l with
  | nil => rfl
  | cons c cs ih =>
    have hc : p c = true := h c (by simp)
    simp only [List.cons_append, List.dropWhile_cons, hc, if_true]
    exact ih (fun x hx => h x (by simp [hx]))

theorem dropWhile_cons_of_neg {α : Type} {p : α → Bool} {c : α} {l : List α}
    (h : p c = false) : List.dropWhile p (c :: l) = c :: l := by
  simp [List.dropWhile_cons, h]

theorem takeWhile_all_of_true {α : Type} (p : α → Bool) :
    ∀ (l : List α), (∀ c ∈ l, p c = true) → List.takeWhile p l = l := by
  intro l h
  induction l with
  | nil => rfl
  | cons c cs ih =>
    have hc : p c = true := h c (by simp)
    simp only [List.takeWhile_cons, hc, if_true]
    rw [ih (fun x hx => h x (by simp [hx]))]

theorem takeWhile_nil_of_false {α : Type} (p : α → Bool) :
    ∀ (l : List α), (∀ c ∈ l, p c = false) → List.takeWhile p l = [] := by
  intro l h
  cases l with
  | nil => rfl
  | cons c cs => simp [List.takeWhile_cons, h c (by simp)]

/-! ### The random-comparator sort is a permutation -/

theorem insertCmp_perm {α : Type} (cmp : ℕ → Bool) :
    ∀ (l : List α) (k : ℕ) (x : α), ((insertCmp cmp k x l).2).Perm (x :: l) := by
  intro l
  induction l with
  | nil => intro k x; simp [insertCmp]
  | cons y ys ih =>
    intro k x
    by_cases h : cmp k = true
    · simp [insertCmp, h]
    · simp only [insertCmp, h, if_false, Bool.false_eq_true]
      exact ((ih (k + 1) x).cons y).trans (List.Perm.swap x y ys)

theorem jsSortAux_perm {α : Type} (cmp : ℕ → Bool) :
    ∀ (l : List α) (k : ℕ), ((jsSortAux cmp k l).2).Perm l := by
  intro l
  induction l with
  | nil => intro k; simp [jsSortAux]
  | cons x xs ih =>
    intro k
    simp only [jsSortAux]
    exact (insertCmp_perm cmp _ _ x).trans ((ih k).cons x)

theorem jsSort_perm {α : Type} (cmp : ℕ → Bool) (l : List α) :
    (jsSort cmp l).Perm l :=
  jsSortAux_perm cmp l 0

/-! ### Bounds for `randInt` -/

theorem randInt_bounds {r : ℚ} {a b : Int} (hab : a ≤ b)
    (h0 : 0 ≤ r) (h1 : r < 1) : a ≤ randInt r a b ∧ randInt r a b ≤ b := by
  have hm : (1 : ℚ) ≤ (b : ℚ) - (a : ℚ) + 1 := by
    have : (a : ℚ) ≤ (b : ℚ) := by exact_mod_cast hab
    linarith
  have hnn : 0 ≤ ⌊r * ((b : ℚ) - (a : ℚ) + 1)⌋ :=
    Int.floor_nonneg.mpr (mul_nonneg h0 (by linarith))
  have hlt : ⌊r * ((b : ℚ) - (a : ℚ) + 1)⌋ < b - a + 1 := by
    apply Int.floor_lt.mpr
    push_cast
    calc r * ((b : ℚ) - (a : ℚ) + 1) < 1 * ((b : ℚ) - (a : ℚ) + 1) := by
          apply mul_lt_mul_of_pos_right h1; linarith
      _ = (b : ℚ) - (a : ℚ) + 1 := by ring
  constructor
  · simp only [randInt]; omega
  · simp only [randInt]; omega

theorem genProblem_bounds {rng : ℕ → ℚ} {minV maxV : Int} (i : ℕ)
    (hab : minV ≤ maxV) (hr : ∀ j, 0 ≤ rng j ∧ rng j < 1) :
    minV ≤ (genProblem rng minV maxV i).a ∧ (genProblem rng minV maxV i).a ≤ maxV ∧
    minV ≤ (genProblem rng minV maxV i).b ∧ (genProblem rng minV maxV i).b ≤ maxV := by
  have ha := randInt_bounds (r := rng (2 * i)) hab (hr (2 * i)).1 (hr (2 * i)).2
  have hb := randInt_bounds (r := rng (2 * i + 1)) hab (hr (2 * i + 1)).1 (hr (2 * i + 1)).2
  exact ⟨ha.1, ha.2, hb.1, hb.2⟩

/-! ### Iterating `next` -/

theorem advanceN_succ (now : Int) (k : ℕ) :
    ∀ st : TrainerState, advanceN now (k + 1) st = next now (advanceN now k st) := by
  induction k with
  | zero => intro st; rfl
  | succ k ih =>
    intro st
    show advanceN now (k + 1) (next now st) = _
    rw [ih (next now st)]
    rfl

/-- While problems remain, `next` only moves the index and clears the
transient input/feedback fields; everything `stop` later reads is
untouched. -/
theorem advanceN_fields (now : Int) :
    ∀ (j : ℕ) (st : TrainerState), st.index + j < st.problems.length →
      (advanceN now j st).index = st.index + j ∧
      (advanceN now j st).problems = st.problems ∧
      (advanceN now j st).running = st.running ∧
      (advanceN now j st).score = st.score ∧
      (advanceN now j st).history = st.history ∧
      (advanceN now j st).saved = st.saved ∧
      (advanceN now j st).numProblems = st.numProblems ∧
      (advanceN now j st).startTime = st.startTime := by
  intro j
  induction j with
  | zero => intro st _; simp [advanceN]
  | succ j ih =>
    intro st hlt
    have hstep : st.index + 1 < st.problems.length := by omega
    have hnext : next now st =
        { st with index := st.index + 1, answer := ([] : List Char), feedback := none } := by
      simp [next, hstep]
    have hred : advanceN now (j + 1) st =
        advanceN now j
          { st with index := st.index + 1, answer := ([] : List Char), feedback := none } := by
      show advanceN now j (next now st) = _
      rw [hnext]
    obtain ⟨h1, h2, h3, h4, h5, h6, h7, h8⟩ :=
      ih { st with index := st.index + 1, answer := ([] : List Char), feedback := none }
        (show st.index + 1 + j < st.problems.length by omega)
    have h1' : (advanceN now j
        { st with index := st.index + 1, answer := ([] : List Char),
                  feedback := none }).index = st.index + 1 + j := h1
    rw [hred]
    exact ⟨by rw [h1']; omega, h2, h3, h4, h5, h6, h7, h8⟩

/-! ### Iterating the timer tick -/

theorem tickN_succ (now : Int) (k : ℕ) :
    ∀ ts : TimerLoop, tickN now (k + 1) ts = tick now (tickN now k ts) := by
  induction k with
  | zero => intro ts; rfl
  | succ k ih =>
    intro ts
    show tickN now (k + 1) (tick now ts) = _
    rw [ih (tick now ts)]
    rfl

/-- Ticks before expiry only decrement the countdown and advance the
elapsed-seconds counter. -/
theorem tickN_quiet (now : Int) :
    ∀ (k : ℕ) (ts : TimerLoop), (k : Int) < ts.timeLeft →
      tickN now k ts = ⟨ts.timeLeft - k, { ts.st with elapsed := ts.st.elapsed + k }⟩ := by
  intro k
  induction k with
  | zero => intro ts _; simp [tickN]
  | succ k ih =>
    intro ts hlt
    have hgt : ¬ ts.timeLeft - 1 ≤ 0 := by push_cast at hlt; omega
    have htick : tick now ts = ⟨ts.timeLeft - 1, { ts.st with elapsed := ts.st.elapsed + 1 }⟩ := by
      simp [tick, hgt]
    show tickN now k (tick now ts) = _
    rw [htick]
    have := ih ⟨ts.timeLeft - 1, { ts.st with elapsed := ts.st.elapsed + 1 }⟩
      (by push_cast at hlt ⊢; omega)
    rw [this]
    congr 1
    · push_cast; ring
    · simp [Nat.add_assoc, Nat.add_comm 1 k]

/-! ### Decimal representation round-trips through `parseInt` -/

theorem digitToChar_toNat {d : ℕ} (hd : d < 10) : (digitToChar d).toNat = 48 + d := by
  interval_cases d <;> decide

theorem isDigitChar_digitToChar {d : ℕ} (hd : d < 10) :
    isDigitChar (digitToChar d) = true := by
  interval_cases d <;> decide

theorem isWs_eq_false_of_digit {c : Char} (h : isDigitChar c = true) :
    isWs c = false := by
  cases hws : isWs c
  · rfl
  · exfalso
    simp only [isWs, Bool.or_eq_true, decide_eq_true_eq] at hws
    rcases hws with ((((h1 | h1) | h1) | h1) | h1) | h1 <;> subst h1 <;>
      exact absurd h (by decide)

theorem natRepr_all_digits (n : ℕ) : ∀ c ∈ natRepr n, isDigitChar c = true := by
  intro c hc
  by_cases h : n = 0
  · subst h
    have hc0 : c = '0' := by simpa [natRepr] using hc
    subst hc0; decide
  · simp only [natRepr, if_neg h, List.mem_reverse, List.mem_map] at hc
    obtain ⟨d, hd, rfl⟩ := hc
    exact isDigitChar_digitToChar (Nat.digits_lt_base (by norm_num) hd)

theorem natRepr_ne_nil (n : ℕ) : natRepr n ≠ [] := by
  by_cases h : n = 0
  · subst h; simp [natRepr]
  · simp only [natRepr, if_neg h, ne_eq, List.reverse_eq_nil_iff, List.map_eq_nil_iff]
    exact Nat.digits_ne_nil_iff_ne_zero.mpr h

theorem foldl_digits_repr :
    ∀ (L : List ℕ), (∀ d ∈ L, d < 10) → ∀ acc : ℕ,
      ((L.map digitToChar).reverse).foldl (fun a c => a * 10 + (c.toNat - 48)) acc
        = acc * 10 ^ L.length + Nat.ofDigits 10 L := by
  intro L
  induction L with
  | nil => intro _ acc; simp [Nat.ofDigits_nil]
  | cons d T ih =>
    intro h acc
    have hd : d < 10 := h d (by simp)
    have hT : ∀ x ∈ T, x < 10 := fun x hx => h x (by simp [hx])
    simp only [List.map_cons, List.reverse_cons, List.foldl_append, List.foldl_cons,
      List.foldl_nil, ih hT acc, digitToChar_toNat hd, Nat.ofDigits_cons, List.length_cons]
    have : 48 + d - 48 = d := by omega
    rw [this, pow_succ]
    ring

theorem parseDigits_natRepr (n : ℕ) : parseDigits (natRepr n) = some n := by
  by_cases h : n = 0
  · subst h; decide
  · have hall := natRepr_all_digits n
    have htake : (natRepr n).takeWhile isDigitChar = natRepr n :=
      takeWhile_all_of_true _ _ hall
    have hne : (natRepr n).isEmpty = false := by
      cases hx : natRepr n with
      | nil => exact absurd hx (natRepr_ne_nil n)
      | cons c cs => rfl
    simp only [parseDigits, htake, hne, Bool.false_eq_true, if_false, Option.some.injEq]
    simp only [natRepr, if_neg h]
    rw [foldl_digits_repr (Nat.digits 10 n)
      (fun d hd => Nat.digits_lt_base (by norm_num) hd) 0]
    simp [Nat.ofDigits_digits]

theorem parseIntJS_natRepr (m : ℕ) : parseIntJS (natRepr m) = some (m : Int) := by
  obtain ⟨c, cs, hccs⟩ := List.exists_cons_of_ne_nil (natRepr_ne_nil m)
  have hc : isDigitChar c = true := natRepr_all_digits m c (by rw [hccs]; simp)
  have hminus : ¬ c = '-' := by
    intro h; subst h; exact absurd hc (by decide)
  have hplus : ¬ c = '+' := by
    intro h; subst h; exact absurd hc (by decide)
  rw [hccs]
  have hdrop : List.dropWhile isWs (c :: cs) = c :: cs :=
    dropWhile_cons_of_neg (isWs_eq_false_of_digit hc)
  simp only [parseIntJS, hdrop, if_neg hminus, if_neg hplus]
  rw [← hccs, parseDigits_natRepr]

theorem parseIntJS_intRepr (v : Int) : parseIntJS (intRepr v) = some v := by
  by_cases hv : v < 0
  · have hdrop : List.dropWhile isWs ('-' :: natRepr (-v).toNat)
        = '-' :: natRepr (-v).toNat := dropWhile_cons_of_neg (by decide)
    simp only [intRepr, if_pos hv, parseIntJS, hdrop, if_pos rfl, parseDigits_natRepr,
      Option.some.injEq]
    have hto : ((-v).toNat : Int) = -v := Int.toNat_of_nonneg (by omega)
    norm_num [hto]
  · simp only [intRepr, if_neg hv, parseIntJS_natRepr, Option.some.injEq]
    exact Int.toNat_of_nonneg (by omega)

theorem parseIntJS_none (l : List Char) (h : ∀ c ∈ l, isDigitChar c = false) :
    parseIntJS l = none := by
  have hsub : ∀ c ∈ List.dropWhile isWs l, isDigitChar c = false :=
    fun c hc => h c ((List.dropWhile_sublist isWs).subset hc)
  cases hdrop : List.dropWhile isWs l with
  | nil => simp [parseIntJS, hdrop]
  | cons c cs =>
    rw [hdrop] at hsub
    have hcs : ∀ x ∈ cs, isDigitChar x = false := fun x hx => hsub x (by simp [hx])
    have hpd : parseDigits cs = none := by
      simp [parseDigits, takeWhile_nil_of_false _ _ hcs]
    have hpd2 : parseDigits (c :: cs) = none := by
      simp [parseDigits, takeWhile_nil_of_false _ _ hsub]
    simp only [parseIntJS, hdrop]
    by_cases h1 : c = '-'
    · simp [h1, hpd]
    · by_cases h2 : c = '+'
      · simp [h1, h2, hpd]
      · simp [h1, h2, hpd2]

/-! ### Trimming whitespace-padded representations -/

theorem jsTrim_subset (l : List Char) : ∀ c ∈ jsTrim l, c ∈ l := by
  intro c hc
  simp only [jsTrim, trimRight, trimLeft, List.mem_reverse] at hc
  have h1 : c ∈ (List.dropWhile isWs l).reverse :=
    (List.dropWhile_sublist isWs).subset hc
  rw [List.mem_reverse] at h1
  exact (List.dropWhile_sublist isWs).subset h1

theorem jsTrim_sandwich (ws1 ws2 x : List Char)
    (h1 : ∀ c ∈ ws1, isWs c = true) (h2 : ∀ c ∈ ws2, isWs c = true)
    (hne : x ≠ [])
    (hhd : ∀ c, x.head? = some c → isWs c = false)
    (hlast : ∀ c, x.getLast? = some c → isWs c = false) :
    jsTrim (ws1 ++ x ++ ws2) = x := by
  obtain ⟨c, cs, hccs⟩ := List.exists_cons_of_ne_nil hne
  have hc : isWs c = false := hhd c (by rw [hccs]; rfl)
  have hleft : trimLeft (ws1 ++ x ++ ws2) = x ++ ws2 := by
    rw [List.append_assoc]
    show List.dropWhile isWs (ws1 ++ (x ++ ws2)) = x ++ ws2
    rw [dropWhile_append_of_all isWs ws1 (x ++ ws2) h1, hccs]
    exact dropWhile_cons_of_neg hc
  obtain ⟨d, ds, hdds⟩ := List.exists_cons_of_ne_nil
    (show x.reverse ≠ [] by simpa [List.reverse_eq_nil_iff] using hne)
  have hd : isWs d = false := by
    apply hlast
    rw [← List.head?_reverse, hdds]; rfl
  rw [jsTrim, hleft]
  show ((x ++ ws2).reverse.dropWhile isWs).reverse = x
  rw [List.reverse_append,
    dropWhile_append_of_all isWs ws2.reverse x.reverse
      (fun e he => h2 e (by rwa [List.mem_reverse] at he)),
    hdds, dropWhile_cons_of_neg hd, ← hdds, List.reverse_reverse]

theorem intRepr_head_not_ws (v : Int) :
    ∀ c, (intRepr v).head? = some c → isWs c = false := by
  intro c hc
  by_cases hv : v < 0
  · simp only [intRepr, if_pos hv, List.head?_cons, Option.some.injEq] at hc
    subst hc; decide
  · simp only [intRepr, if_neg hv] at hc
    obtain ⟨d, ds, hdds⟩ := List.exists_cons_of_ne_nil (natRepr_ne_nil v.toNat)
    rw [hdds, List.head?_cons, Option.some.injEq] at hc
    subst hc
    exact isWs_eq_false_of_digit (natRepr_all_digits _ d (by rw [hdds]; simp))

theorem intRepr_last_not_ws (v : Int) :
    ∀ c, (intRepr v).getLast? = some c → isWs c = false := by
  intro c hc
  have hmem : c ∈ intRepr v := List.mem_of_getLast?_eq_some hc
  by_cases hv : v < 0
  · simp only [intRepr, if_pos hv] at hc hmem
    obtain ⟨d, ds, hdds⟩ := List.exists_cons_of_ne_nil (natRepr_ne_nil (-v).toNat)
    rw [hdds, List.getLast?_cons_cons] at hc
    have : c ∈ natRepr (-v).toNat := by
      rw [hdds]
      exact List.mem_of_getLast?_eq_some hc
    exact isWs_eq_false_of_digit (natRepr_all_digits _ c this)
  · simp only [intRepr, if_neg hv] at hmem
    exact isWs_eq_false_of_digit (natRepr_all_digits _ c hmem)

theorem intRepr_ne_nil (v : Int) : intRepr v ≠ [] := by
  by_cases hv : v < 0
  · simp [intRepr, if_pos hv]
  · simp only [intRepr, if_neg hv]
    exact natRepr_ne_nil v.toNat

/-! ### `checkAnswer` behaviour while running -/

theorem checkAnswer_correct {st : TrainerState} {p : Problem} (input : List Char)
    (hrun : st.running = true) (hp : st.problems[st.index]? = some p)
    (hparse : parseIntJS (jsTrim input) = some (p.a + p.b)) :
    checkAnswer input st =
      { st with feedback := some { ok := true, correct := some (p.a + p.b) },
                score := st.score + 1 } := by
  simp [checkAnswer, hrun, hp, hparse]

theorem checkAnswer_incorrect {st : TrainerState} {p : Problem} (input : List Char)
    (hrun : st.running = true) (hp : st.problems[st.index]? = some p)
    (hparse : parseIntJS (jsTrim input) ≠ some (p.a + p.b)) :
    checkAnswer input st =
      { st with feedback := some { ok := false, correct := some (p.a + p.b) } } := by
  simp [checkAnswer, hrun, hp, hparse]

theorem checkAnswer_idle (input : List Char) {st : TrainerState}
    (hidle : st.running = false) : checkAnswer input st = st := by
  simp [checkAnswer, hidle]

/-! ### Miscellaneous helpers for the claim proofs -/

theorem head?_take_fifty {α : Type} (a : α) (l : List α) :
    ((a :: l).take 50).head? = some a := rfl

theorem stopMany_append (l1 l2 : List (String × Int)) :
    ∀ st : TrainerState, stopMany st (l1 ++ l2) = stopMany (stopMany st l1) l2 := by
  induction l1 with
  | nil => intro st; rfl
  | cons c cs ih =>
    intro st
    obtain ⟨r, t⟩ := c
    exact ih (stop r t st)

/-- A generic mid-run state used to instantiate the claim theorems:
`ps` problems, current score `sc`, index 0, no timer, manual advance. -/
def demoRun (ps : List Problem) (sc : Nat) : TrainerState :=
  { minOperand := 0, maxOperand := 20, numProblems := (ps.length : Int),
    timePerProblem := 0, autoNext := false, shuffle := false, running := true,
    problems := ps, index := 0, answer := [], feedback := none, score := sc,
    startTime := some 0, elapsed := 0, history := [], saved := [] }

/-- The problem `2 + 3` as generated at position 0. -/
def demoProblem : Problem := { a := 2, b := 3, op := "+", id := "2-3-0" }

/-- An Idle (never started) controller state. -/
def idleDemo : TrainerState :=
  { demoRun [] 0 with running := false, startTime := none }

/-! ## Claims -/

/-- C9: for every configuration and random stream, the shuffled generation
is a permutation of the unshuffled generation — the multiset of generated
problems is preserved, no problem lost or duplicated, only the order
changes. -/
theorem C9_shuffle_preserves_multiset (n minV maxV : Int) (rng : ℕ → ℚ) :
    (makeProblems n minV maxV true rng).Perm (makeProblems n minV maxV false rng) := by
  simp only [makeProblems, if_true, if_false, Bool.false_eq_true]
  exact jsSort_perm _ _

/-- C4: for a non-negative count `n`, bounds `minV ≤ maxV`, and any random
stream with draws in `[0, 1)`, `makeProblems` returns exactly `n` problems
and every operand of every returned problem lies in `[minV, maxV]`. -/
theorem C4_generate_count_and_bounds (n minV maxV : Int) (shuffled : Bool)
    (rng : ℕ → ℚ) (hn : 0 ≤ n) (hab : minV ≤ maxV)
    (hr : ∀ j, 0 ≤ rng j ∧ rng j < 1) :
    ((makeProblems n minV maxV shuffled rng).length : Int) = n ∧
    ∀ p ∈ makeProblems n minV maxV shuffled rng,
      minV ≤ p.a ∧ p.a ≤ maxV ∧ minV ≤ p.b ∧ p.b ≤ maxV := by
  have hperm : ∀ s : Bool, (makeProblems n minV maxV s rng).Perm
      ((List.range n.toNat).map (genProblem rng minV maxV)) := by
    intro s
    cases s
    · simp [makeProblems]
    · simpa [makeProblems] using
        jsSort_perm (fun k => decide (rng (2 * n.toNat + k) < 1 / 2))
          ((List.range n.toNat).map (genProblem rng minV maxV))
  constructor
  · rw [(hperm shuffled).length_eq]
    simp [Int.toNat_of_nonneg hn]
  · intro p hp
    have hmem : p ∈ (List.range n.toNat).map (genProblem rng minV maxV) :=
      (hperm shuffled).mem_iff.mp hp
    obtain ⟨i, _, rfl⟩ := List.mem_map.mp hmem
    exact genProblem_bounds i hab hr

/-- C4 witness: three problems over `[0, 20]` with the constant draw 0. -/
theorem C4_generate_count_and_bounds_witness :
    ((makeProblems 3 0 20 true (fun _ => 0)).length : Int) = 3 ∧
    ∀ p ∈ makeProblems 3 0 20 true (fun _ => 0),
      (0 : Int) ≤ p.a ∧ p.a ≤ 20 ∧ (0 : Int) ≤ p.b ∧ p.b ≤ 20 :=
  C4_generate_count_and_bounds 3 0 20 true (fun _ => 0) (by decide) (by decide)
    (fun j => ⟨le_refl 0, by norm_num⟩)

/-- C5: after any sequence of `stop` calls ending in one more `stop`, the
persisted history has at most 50 entries, the record of the most recent
`stop` sits at index 0, and the in-memory history equals the persisted
one. -/
theorem C5_history_capped (st : TrainerState) (calls : List (String × Int))
    (r : String) (t : Int) :
    (stopMany st (calls ++ [(r, t)])).saved.length ≤ 50 ∧
    (stopMany st (calls ++ [(r, t)])).saved.head?
      = some (mkRecord (stopMany st calls) r t) ∧
    (stopMany st (calls ++ [(r, t)])).history = (stopMany st (calls ++ [(r, t)])).saved := by
  rw [stopMany_append]
  refine ⟨?_, ?_, rfl⟩
  · exact List.length_take_le 50 _
  · exact head?_take_fifty _ _

/-- C8: `loadHistory` returns the empty sequence both when nothing is
stored and when the stored string is malformed (the abstract `JSON.parse`
collaborator throws, modelled by `none`); being a total function, it never
faults. -/
theorem C8_load_history_safe (parseJson : String → Option (List SessionRecord))
    (raw : String) :
    loadHistory parseJson none = [] ∧
    (parseJson raw = none → loadHistory parseJson (some raw) = []) := by
  refine ⟨rfl, fun h => ?_⟩
  by_cases hraw : raw = ""
  · simp [loadHistory, hraw]
  · simp [loadHistory, hraw, h]

/-- C8 witness: a parser that always fails, on missing and on malformed
data. -/
theorem C8_load_history_safe_witness :
    loadHistory (fun _ => none) none = [] ∧
    loadHistory (fun _ => none) (some "x") = [] :=
  ⟨(C8_load_history_safe (fun _ => none) "x").1,
   (C8_load_history_safe (fun _ => none) "x").2 rfl⟩

/-- C3: from any running state whose problem list still has its original
length `n` (the configured count, also held in `numProblems`), `stop`
produces a record with `solved` = current score, `total` = `n` (the full
batch size, even if stopped early), and the given reason; the record is
handed to persistence (head of `saved`) and the controller becomes Idle.
`stop()`'s default reason is `"user"`. -/
theorem C3_stop_record (st : TrainerState) (n : ℕ) (r : String) (now : Int)
    (hrun : st.running = true) (hlen : st.problems.length = n)
    (hnum : st.numProblems = (n : Int)) :
    (stop r now st).running = false ∧
    (stop r now st).history.head? = some (mkRecord st r now) ∧
    (mkRecord st r now).solved = st.score ∧
    (mkRecord st r now).total = (n : Int) ∧
    (mkRecord st r now).reason = r ∧
    (stop r now st).saved = (stop r now st).history ∧
    (stopDefault now st).history.head? = some (mkRecord st "user" now) ∧
    (mkRecord st "user" now).reason = "user" := by
  have htot : stopTotal st = (n : Int) := by
    simp only [stopTotal, hlen]
    split
    · rename_i h0
      rw [hnum, h0]
    · rfl
  exact ⟨rfl, head?_take_fifty _ _, rfl, htot, rfl, rfl, head?_take_fifty _ _, rfl⟩

/-- C3 witness: `stop("user")` with 1 of 3 answered (score 1, batch 3). -/
theorem C3_stop_record_witness :
    (stop "user" 2000 (demoRun [demoProblem, demoProblem, demoProblem] 1)).running = false ∧
    (stop "user" 2000 (demoRun [demoProblem, demoProblem, demoProblem] 1)).history.head?
      = some (mkRecord (demoRun [demoProblem, demoProblem, demoProblem] 1) "user" 2000) ∧
    (mkRecord (demoRun [demoProblem, demoProblem, demoProblem] 1) "user" 2000).solved = 1 ∧
    (mkRecord (demoRun [demoProblem, demoProblem, demoProblem] 1) "user" 2000).total = (3 : Int) ∧
    (mkRecord (demoRun [demoProblem, demoProblem, demoProblem] 1) "user" 2000).reason = "user" ∧
    (stop "user" 2000 (demoRun [demoProblem, demoProblem, demoProblem] 1)).saved
      = (stop "user" 2000 (demoRun [demoProblem, demoProblem, demoProblem] 1)).history ∧
    (stopDefault 2000 (demoRun [demoProblem, demoProblem, demoProblem] 1)).history.head?
      = some (mkRecord (demoRun [demoProblem, demoProblem, demoProblem] 1) "user" 2000) ∧
    (mkRecord (demoRun [demoProblem, demoProblem, demoProblem] 1) "user" 2000).reason = "user" :=
  C3_stop_record (demoRun [demoProblem, demoProblem, demoProblem] 1) 3 "user" 2000
    rfl rfl rfl

/-- C7 is false as stated: the code's `stop` has no Idle guard, so calling
`stop` while already Idle is not a no-op — on a never-started Idle state
with empty history it appends a SessionRecord (history grows from 0 to 1
entries). -/
theorem C7_counterexample :
    idleDemo.running = false ∧ idleDemo.history.length = 0 ∧
    (stop "user" 1000 idleDemo).history.length = 1 := by
  exact ⟨rfl, rfl, rfl⟩

/-- C7 (amended): `submitAnswer` called while Idle is indeed a no-op that
changes nothing; `stop` called while already Idle, however, is not guarded:
it still builds a SessionRecord, prepends it to the (capped) history,
persists it, and leaves the controller Idle. -/
theorem C7_amended_idle_ops (st : TrainerState) (input : List Char) (r : String)
    (now : Int) (hidle : st.running = false) :
    checkAnswer input st = st ∧
    (stop r now st).history = (mkRecord st r now :: st.history).take 50 ∧
    (stop r now st).history.head? = some (mkRecord st r now) ∧
    (stop r now st).saved = (stop r now st).history ∧
    (stop r now st).running = false :=
  ⟨checkAnswer_idle input hidle, rfl, head?_take_fifty _ _, rfl, rfl⟩

/-- C7 amended-claim witness: the Idle demo state. -/
theorem C7_amended_idle_ops_witness :
    checkAnswer ['1'] idleDemo = idleDemo ∧
    (stop "user" 1000 idleDemo).history
      = (mkRecord idleDemo "user" 1000 :: idleDemo.history).take 50 ∧
    (stop "user" 1000 idleDemo).history.head? = some (mkRecord idleDemo "user" 1000) ∧
    (stop "user" 1000 idleDemo).saved = (stop "user" 1000 idleDemo).history ∧
    (stop "user" 1000 idleDemo).running = false :=
  C7_amended_idle_ops idleDemo ['1'] "user" 1000 rfl

/-- C10 (implicit): scoring is not limited to one submission per problem —
each `submitAnswer` whose input parses to the current sum adds 1 to the
score without advancing the index, so two submissions on the same problem
add 2, and the stop record's `solved` can exceed its `total`. -/
theorem C10_rescore_same_problem (st : TrainerState) (p : Problem)
    (input : List Char) (r : String) (now : Int)
    (hrun : st.running = true) (hp : st.problems[st.index]? = some p)
    (hparse : parseIntJS (jsTrim input) = some (p.a + p.b)) :
    (checkAnswer input st).score = st.score + 1 ∧
    (checkAnswer input st).index = st.index ∧
    (checkAnswer input st).running = true ∧
    (checkAnswer input (checkAnswer input st)).score = st.score + 2 ∧
    (stop r now (checkAnswer input (checkAnswer input st))).history.head?
      = some (mkRecord (checkAnswer input (checkAnswer input st)) r now) ∧
    (mkRecord (checkAnswer input (checkAnswer input st)) r now).solved = st.score + 2 ∧
    (mkRecord (checkAnswer input (checkAnswer input st)) r now).total = stopTotal st := by
  have h1 := checkAnswer_correct input hrun hp hparse
  have h2 := @checkAnswer_correct
    { st with feedback := some { ok := true, correct := some (p.a + p.b) },
              score := st.score + 1 } p input hrun hp hparse
  rw [h1, h2]
  exact ⟨rfl, rfl, hrun, rfl, head?_take_fifty _ _, rfl, rfl⟩

/-- C10 witness: a one-problem batch (`2 + 3`, total 1) where two correct
submissions yield score 2, so the stop record has `solved` 2 > `total` 1. -/
theorem C10_rescore_same_problem_witness :
    (checkAnswer ['5'] (demoRun [demoProblem] 0)).score = 1 ∧
    (checkAnswer ['5'] (checkAnswer ['5'] (demoRun [demoProblem] 0))).score = 2 ∧
    (mkRecord (checkAnswer ['5'] (checkAnswer ['5'] (demoRun [demoProblem] 0))) "user" 0).solved
      = 2 ∧
    (mkRecord (checkAnswer ['5'] (checkAnswer ['5'] (demoRun [demoProblem] 0))) "user" 0).total
      = 1 := by
  have h := C10_rescore_same_problem (demoRun [demoProblem] 0) demoProblem ['5'] "user" 0
    rfl rfl (by decide)
  exact ⟨h.1, h.2.2.2.1, h.2.2.2.2.2.1, h.2.2.2.2.2.2⟩

/-- C2: in a running state with current problem `p`, submitting exactly the
decimal text of `p.a + p.b`, possibly surrounded by whitespace, yields
correct feedback (and a score increment); any input containing no digit at
all fails to parse and yields incorrect feedback — parse failure degrades
to "incorrect", never a fault (`checkAnswer` is total). -/
theorem C2_submit_answer_parsing (st : TrainerState) (p : Problem)
    (hrun : st.running = true) (hp : st.problems[st.index]? = some p) :
    (∀ ws1 ws2 : List Char, (∀ c ∈ ws1, isWs c = true) → (∀ c ∈ ws2, isWs c = true) →
      (checkAnswer (ws1 ++ intRepr (p.a + p.b) ++ ws2) st).feedback
          = some { ok := true, correct := some (p.a + p.b) } ∧
      (checkAnswer (ws1 ++ intRepr (p.a + p.b) ++ ws2) st).score = st.score + 1) ∧
    (∀ input : List Char, (∀ c ∈ input, isDigitChar c = false) →
      (checkAnswer input st).feedback = some { ok := false, correct := some (p.a + p.b) } ∧
      (checkAnswer input st).score = st.score) := by
  constructor
  · intro ws1 ws2 h1 h2
    have htrim : jsTrim (ws1 ++ intRepr (p.a + p.b) ++ ws2) = intRepr (p.a + p.b) :=
      jsTrim_sandwich ws1 ws2 _ h1 h2 (intRepr_ne_nil _)
        (intRepr_head_not_ws _) (intRepr_last_not_ws _)
    have hparse : parseIntJS (jsTrim (ws1 ++ intRepr (p.a + p.b) ++ ws2))
        = some (p.a + p.b) := by
      rw [htrim, parseIntJS_intRepr]
    rw [checkAnswer_correct _ hrun hp hparse]
    exact ⟨rfl, rfl⟩
  · intro input hnd
    have hnone : parseIntJS (jsTrim input) = none :=
      parseIntJS_none _ (fun c hc => hnd c (jsTrim_subset input c hc))
    have hne : parseIntJS (jsTrim input) ≠ some (p.a + p.b) := by
      rw [hnone]; exact Option.noConfusion
    rw [checkAnswer_incorrect _ hrun hp hne]
    exact ⟨rfl, rfl⟩

/-- C2 witness: `" 5 "` (as char list) on the `2 + 3` problem is correct;
`"abc"` is incorrect. -/
theorem C2_submit_answer_parsing_witness :
    ((checkAnswer ([' '] ++ intRepr (demoProblem.a + demoProblem.b) ++ [' '])
        (demoRun [demoProblem] 0)).feedback
      = some { ok := true, correct := some (demoProblem.a + demoProblem.b) } ∧
    (checkAnswer ([' '] ++ intRepr (demoProblem.a + demoProblem.b) ++ [' '])
        (demoRun [demoProblem] 0)).score = (demoRun [demoProblem] 0).score + 1) ∧
    ((checkAnswer ['a', 'b', 'c'] (demoRun [demoProblem] 0)).feedback
      = some { ok := false, correct := some (demoProblem.a + demoProblem.b) } ∧
    (checkAnswer ['a', 'b', 'c'] (demoRun [demoProblem] 0)).score
      = (demoRun [demoProblem] 0).score) :=
  ⟨(C2_submit_answer_parsing (demoRun [demoProblem] 0) demoProblem rfl rfl).1
      [' '] [' '] (by decide) (by decide),
   (C2_submit_answer_parsing (demoRun [demoProblem] 0) demoProblem rfl rfl).2
      ['a', 'b', 'c'] (by decide)⟩

/-- C1: from a fresh running batch of `n ≥ 1` problems with `autoNext`
disabled, the controller is still running after `n - 1` `advance()` calls,
and the `n`-th call finishes the run: it synchronously stops with reason
`"finished"`, producing a record with `total = n` and the current score,
hands it to persistence (`saved`), and leaves the controller Idle. -/
theorem C1_full_run_finishes (st : TrainerState) (n : ℕ) (now : Int)
    (hrun : st.running = true) (hidx : st.index = 0)
    (hlen : st.problems.length = n) (hauto : st.autoNext = false) (hn : 1 ≤ n) :
    (advanceN now (n - 1) st).running = true ∧
    (advanceN now n st).running = false ∧
    ∃ rec : SessionRecord, (advanceN now n st).history.head? = some rec ∧
      rec.total = (n : Int) ∧ rec.reason = "finished" ∧ rec.solved = st.score ∧
      (advanceN now n st).saved = (advanceN now n st).history := by
  obtain ⟨f1, f2, f3, f4, f5, f6, f7, f8⟩ :=
    advanceN_fields now (n - 1) st (by omega)
  set M := advanceN now (n - 1) st with hM
  have hMrun : M.running = true := by rw [f3, hrun]
  have hMlen : M.problems.length = n := by rw [f2, hlen]
  have hMidx : M.index = n - 1 := by rw [f1, hidx]; omega
  have hstep : advanceN now n st = next now M := by
    have h := advanceN_succ now (n - 1) st
    rwa [show n - 1 + 1 = n by omega] at h
  have hcond : ¬ (M.index + 1 < M.problems.length) := by omega
  have hnext : next now M
      = stop "finished" now { M with answer := ([] : List Char), feedback := none } := by
    simp [next, hcond]
  have htot : stopTotal { M with answer := ([] : List Char), feedback := none }
      = (n : Int) := by
    show (if M.problems.length = 0 then M.numProblems else (M.problems.length : Int))
      = (n : Int)
    rw [if_neg (by omega), hMlen]
  refine ⟨hMrun, ?_, mkRecord { M with answer := ([] : List Char), feedback := none }
    "finished" now, ?_, htot, rfl, ?_, ?_⟩
  · rw [hstep, hnext]; rfl
  · rw [hstep, hnext]; exact head?_take_fifty _ _
  · show M.score = st.score
    exact f4
  · rw [hstep, hnext]; rfl

/-- C1 witness: a two-problem batch; one advance keeps it running, the
second finishes it. -/
theorem C1_full_run_finishes_witness :
    (advanceN 0 (2 - 1) (demoRun [demoProblem, demoProblem] 0)).running = true ∧
    (advanceN 0 2 (demoRun [demoProblem, demoProblem] 0)).running = false ∧
    ∃ rec : SessionRecord,
      (advanceN 0 2 (demoRun [demoProblem, demoProblem] 0)).history.head? = some rec ∧
      rec.total = (2 : Int) ∧ rec.reason = "finished" ∧
      rec.solved = (demoRun [demoProblem, demoProblem] 0).score ∧
      (advanceN 0 2 (demoRun [demoProblem, demoProblem] 0)).saved
        = (advanceN 0 2 (demoRun [demoProblem, demoProblem] 0)).history :=
  C1_full_run_finishes (demoRun [demoProblem, demoProblem] 0) 2 0
    rfl rfl rfl rfl (by decide)

/-- The expiry step of one timer tick, when the countdown has reached
zero. -/
theorem tick_expire (now : Int) (tl : Int) (s : TrainerState) (h : tl - 1 ≤ 0) :
    tick now ⟨tl, s⟩ =
      TimerLoop.mk (tl - 1)
        (if s.autoNext then
          next now { s with
            elapsed := s.elapsed + 1,
            feedback := some { ok := false, correct := (s.problems[s.index]?).map (fun q => q.a + q.b) } }
        else { s with
          elapsed := s.elapsed + 1,
          feedback := some { ok := false, correct := (s.problems[s.index]?).map (fun q => q.a + q.b) } }) := by
  simp [tick, h]

/-- C6: with a current problem and `timePerProblem = T ≥ 1`, after `T`
unanswered ticks the controller synthesizes incorrect feedback carrying the
true sum; with `autoNext` disabled it stays Running (same index) showing
that feedback, with `autoNext` enabled the resulting state is exactly
`next` applied to the expired state — `advance()` invoked with no caller
action. -/
theorem C6_timer_expiry (st : TrainerState) (p : Problem) (T : ℕ) (now : Int)
    (hrun : st.running = true) (hp : st.problems[st.index]? = some p)
    (hT : st.timePerProblem = (T : Int)) (hpos : 1 ≤ T) :
    (st.autoNext = false →
      tickN now T (timerInit st)
        = TimerLoop.mk 0 { st with
            elapsed := T,
            feedback := some { ok := false, correct := some (p.a + p.b) } } ∧
      (tickN now T (timerInit st)).st.running = true ∧
      (tickN now T (timerInit st)).st.index = st.index) ∧
    (st.autoNext = true →
      (tickN now T (timerInit st)).st
        = next now { st with
            elapsed := T,
            feedback := some { ok := false, correct := some (p.a + p.b) } }) := by
  have hcond : ((T - 1 : ℕ) : Int) < (timerInit st).timeLeft := by
    show ((T - 1 : ℕ) : Int) < st.timePerProblem
    rw [hT]; omega
  have hq := tickN_quiet now (T - 1) (timerInit st) hcond
  have hstep := tickN_succ now (T - 1) (timerInit st)
  rw [show T - 1 + 1 = T by omega] at hstep
  rw [hq] at hstep
  have htl : (timerInit st).timeLeft - ((T - 1 : ℕ) : Int) - 1 ≤ 0 := by
    show st.timePerProblem - ((T - 1 : ℕ) : Int) - 1 ≤ 0
    rw [hT]; omega
  rw [tick_expire now _ _ htl] at hstep
  set s1 : TrainerState :=
    { (timerInit st).st with elapsed := (timerInit st).st.elapsed + (T - 1) } with hs1
  have hX : ({ s1 with
      elapsed := s1.elapsed + 1,
      feedback := some { ok := false, correct := (s1.problems[s1.index]?).map (fun q => q.a + q.b) } } : TrainerState)
      = { st with
          elapsed := T,
          feedback := some { ok := false, correct := some (p.a + p.b) } } := by
    have hel : s1.elapsed + 1 = T := by
      show 0 + (T - 1) + 1 = T
      omega
    have hfb : (s1.problems[s1.index]?).map (fun q => q.a + q.b) = some (p.a + p.b) := by
      show (st.problems[st.index]?).map (fun q => q.a + q.b) = some (p.a + p.b)
      rw [hp]
      rfl
    rw [hel, hfb]
    rfl
  rw [hX] at hstep
  have harith1 : (timerInit st).timeLeft - ((T - 1 : ℕ) : Int) - 1 = 0 := by
    show st.timePerProblem - ((T - 1 : ℕ) : Int) - 1 = 0
    rw [hT]; omega
  rw [harith1] at hstep
  rw [show s1.autoNext = st.autoNext from rfl] at hstep
  constructor
  · intro hfalse
    have hif : (if st.autoNext = true then
          next now { st with elapsed := T, feedback := some { ok := false, correct := some (p.a + p.b) } }
        else { st with elapsed := T, feedback := some { ok := false, correct := some (p.a + p.b) } })
        = { st with elapsed := T, feedback := some { ok := false, correct := some (p.a + p.b) } } := by
      rw [hfalse]
      simp
    rw [hif] at hstep
    refine ⟨hstep, ?_, ?_⟩
    · rw [hstep]; exact hrun
    · rw [hstep]
  · intro htrue
    have hif : (if st.autoNext = true then
          next now { st with elapsed := T, feedback := some { ok := false, correct := some (p.a + p.b) } }
        else { st with elapsed := T, feedback := some { ok := false, correct := some (p.a + p.b) } })
        = next now { st with elapsed := T, feedback := some { ok := false, correct := some (p.a + p.b) } } := by
      rw [htrue]
      simp
    rw [hif] at hstep
    rw [hstep]

/-- A running one-problem state with a 5-second per-problem timer. -/
def demoTimed : TrainerState := { demoRun [demoProblem] 0 with timePerProblem := 5 }

/-- C6 witness: `timePerProblem = 5`, no answer for 5 ticks, `autoNext`
disabled: the expired feedback appears and the controller stays running. -/
theorem C6_timer_expiry_witness :
    tickN 0 5 (timerInit demoTimed)
      = TimerLoop.mk 0 { demoTimed with elapsed := 5, feedback := some { ok := false, correct := some (demoProblem.a + demoProblem.b) } } ∧
    (tickN 0 5 (timerInit demoTimed)).st.running = true ∧
    (tickN 0 5 (timerInit demoTimed)).st.index = demoTimed.index :=
  (C6_timer_expiry demoTimed demoProblem 5 0 rfl rfl rfl (by decide)).1 rfl

end MathTrainer
